import Mathlib

/-!
Verification of the compsys system orchestrator (src/src/index.ts).

The embedding models the System class: construction from a Blueprint,
the start protocol (topological order, dependency injection, lifecycle
start) and the stop protocol (reverse order, lifecycle stop).  The
external graph utility (the npm dependency-graph package) is not part of
this repository; its operations are modelled from the specification of
the DependencyOrderer collaborator.

Components are opaque values in the source (type any); the embedding
identifies a component instance by a natural number and supplies its
capabilities and behavior through an ActorSem environment.  A role whose
node data was never set reads as component 0 (the source reads undefined
there; a faithful environment gives that value no capabilities).
-/

namespace Compsys

/-- A Role is a string identifier (src/src/index.ts line 28). -/
abbrev Role := String

/-- A Component is an opaque value; the embedding names an instance by a
natural number. -/
abbrev Component := Nat

/-- The behavior environment for components: which instances expose the
inject, start and stop operations, and what those operations do.
injectFn c r d is the instance returned by the inject call on c with role
r and dependency instance d; startFn and stopFn return the replacement
instance, or the raw rejection value of type e. -/
structure ActorSem (e : Type) where
  hasInject : Component → Bool
  hasStart : Component → Bool
  hasStop : Component → Bool
  injectFn : Component → Role → Component → Component
  startFn : Component → Except e Component
  stopFn : Component → Except e Component

/-- The isDepender type guard (src lines 71 to 73): the component exposes
the inject operation. -/
def isDepender (sem : ActorSem e) (c : Component) : Bool :=
  sem.hasInject c

/-- The hasLifecycle type guard (src lines 79 to 81): the component
exposes both the start and the stop operation. -/
def hasLifecycle (sem : ActorSem e) (c : Component) : Bool :=
  sem.hasStart c && sem.hasStop c

/-- Errors signalled by the graph utility.  missingNode names a node that
was never added; cycle lists the roles that cannot be placed in any
linear order. -/
inductive GraphErr where
  | missingNode (role : Role)
  | cycle (roles : List Role)
deriving DecidableEq, Repr

/-- Errors escaping the System: a graph error, the construction guard of
src line 95 (only dependers may have dependencies), the construction
guard of src line 103 (missing roles), or an actor rejection rethrown
raw. -/
inductive SysErr (e : Type) where
  | graph (ge : GraphErr)
  | onlyDependers
  | missingRoles (roles : List Role)
  | actor (err : e)
deriving DecidableEq, Repr

/-- Association-list update: replace the binding of key k, or append it. -/
def setAssoc : List (Role × a) → Role → a → List (Role × a)
  | [], k, v => [(k, v)]
  | (k1, v1) :: rest, k, v =>
      if k1 = k then (k, v) :: rest else (k1, v1) :: setAssoc rest k v

/-- Modelled from the spec: the DependencyOrderer graph state.  nodes in
insertion order, per-node data, and per-node outgoing edge lists (the
dependency roles of each node, edge dependency to dependent). -/
structure DepGraph where
  nodes : List Role
  data : List (Role × Component)
  outgoing : List (Role × List Role)
deriving DecidableEq, Repr

/-- Modelled from the spec: an empty graph. -/
def DepGraph.empty : DepGraph := ⟨[], [], []⟩

/-- Modelled from the spec: hasNode. -/
def DepGraph.hasNode (g : DepGraph) (r : Role) : Bool :=
  g.nodes.contains r

/-- Modelled from the spec: addNode adds the role as a node when absent. -/
def DepGraph.addNode (g : DepGraph) (r : Role) : DepGraph :=
  if g.hasNode r then g else { g with nodes := g.nodes ++ [r] }

/-- Modelled from the spec: the node data currently stored for a role
(component 0 when never set, standing for the undefined value). -/
def DepGraph.getNodeData (g : DepGraph) (r : Role) : Component :=
  (((g.data.find? (fun p => p.1 == r))).map Prod.snd).getD 0

/-- Modelled from the spec: setNodeData stores data for an existing node
and signals missingNode otherwise. -/
def DepGraph.setNodeData (g : DepGraph) (r : Role) (c : Component) :
    Except GraphErr DepGraph :=
  if g.hasNode r then .ok { g with data := setAssoc g.data r c }
  else .error (.missingNode r)

/-- Modelled from the spec: predecessorsOf, the dependency roles of a
node in declaration order; the roles supplied to the node by injection. -/
def DepGraph.dependenciesOf (g : DepGraph) (r : Role) : List Role :=
  (((g.outgoing.find? (fun p => p.1 == r))).map Prod.snd).getD []

/-- Modelled from the spec: addEdge from dependent to dependency;
signals missingNode (naming the absent role) when either endpoint was
never declared, checking the dependent first; a duplicate edge is kept
once. -/
def DepGraph.addDependency (g : DepGraph) (dependent dependency : Role) :
    Except GraphErr DepGraph :=
  if ¬ g.hasNode dependent then .error (.missingNode dependent)
  else if ¬ g.hasNode dependency then .error (.missingNode dependency)
  else
    let l := g.dependenciesOf dependent
    let l2 := if dependency ∈ l then l else l ++ [dependency]
    .ok { g with outgoing := setAssoc g.outgoing dependent l2 }

/-- Modelled from the spec: one round of the ordering computation, which
appends every node whose dependencies are all already placed. -/
def DepGraph.topoRound (g : DepGraph) (acc : List Role) : List Role :=
  acc ++ g.nodes.filter
    (fun r => !acc.contains r && (g.dependenciesOf r).all acc.contains)

/-- Modelled from the spec: iterate the ordering rounds. -/
def DepGraph.topoIter (g : DepGraph) : Nat → List Role
  | 0 => []
  | n + 1 => g.topoRound (g.topoIter n)

/-- Modelled from the spec: linearOrder of the DependencyOrderer, called
overallOrder at the call sites (src lines 110 and 136): a linear order
respecting every dependency edge, or a cycle error naming the roles that
cannot be ordered. -/
def DepGraph.overallOrder (g : DepGraph) : Except GraphErr (List Role) :=
  let res := g.topoIter g.nodes.length
  if res.length = g.nodes.length then .ok res
  else .error (.cycle (g.nodes.filter (fun r => !res.contains r)))

/-- A Blueprint (src lines 62 to 65): declared roles with descriptions,
and component entries carrying the component value and its dependency
set.  Maps and sets iterate in insertion order, kept here as lists. -/
structure Blueprint where
  roles : List (Role × String)
  components : List (Role × Component × List Role)

/-- One dependency edge addition of the constructor loop (src line 98),
wrapping a graph error into a system error. -/
def addDepStep (role : Role) (g2 : DepGraph) (dep : Role) :
    Except (SysErr e) DepGraph :=
  match g2.addDependency role dep with
  | .ok g3 => .ok g3
  | .error ge => .error (.graph ge)

/-- One iteration of the component loop of the System constructor
(src lines 93 to 99): reject a non-depender with dependencies, store the
component as node data, then add one edge per declared dependency. -/
def System.constructEntry (sem : ActorSem e) (g : DepGraph)
    (entry : Role × Component × List Role) : Except (SysErr e) DepGraph :=
  let (role, component, dependencies) := entry
  if !isDepender sem component && !dependencies.isEmpty then
    .error .onlyDependers
  else
    match g.setNodeData role component with
    | .error ge => .error (.graph ge)
    | .ok g1 => dependencies.foldlM (addDepStep role) g1

/-- The System constructor up to, but not including, the final missing
roles check (src lines 91 to 99): add a node per declared role, then
process every component entry. -/
def System.constructGraph (sem : ActorSem e) (bp : Blueprint) :
    Except (SysErr e) DepGraph :=
  bp.components.foldlM (System.constructEntry sem)
    (bp.roles.foldl (fun g rd => g.addNode rd.1) DepGraph.empty)

/-- The full System constructor (src lines 90 to 105), ending with the
missing roles check of src lines 100 to 104. -/
def System.construct (sem : ActorSem e) (bp : Blueprint) :
    Except (SysErr e) DepGraph :=
  match System.constructGraph sem bp with
  | .error err => .error err
  | .ok g =>
      let declaredRoles := bp.roles.map Prod.fst
      let missingRoles := declaredRoles.filter (fun r => !g.hasNode r)
      if missingRoles.isEmpty then .ok g else .error (.missingRoles missingRoles)

/-- Observable actor operations in call order.  injectCall dependent dep
target arg records an inject call performed on instance target while
starting the dependent role, passing the dependency role dep and the
instance arg; startCall and stopCall record the instance the lifecycle
operation was invoked on. -/
inductive Event where
  | injectCall (dependent : Role) (dep : Role) (target : Component) (arg : Component)
  | startCall (role : Role) (comp : Component)
  | stopCall (role : Role) (comp : Component)
deriving DecidableEq, Repr

/-- The injection fold of src lines 115 to 117: each inject call is made
on the instance returned by the previous call, with the dependency
argument read from the graph; returns the events and the final folded
depender. -/
def injectFold (sem : ActorSem e) (g : DepGraph) (role : Role) :
    List Role → Component → List Event × Component
  | [], c => ([], c)
  | d :: ds, c =>
      let arg := g.getNodeData d
      let rest := injectFold sem g role ds (sem.injectFn c d arg)
      (Event.injectCall role d c arg :: rest.1, rest.2)

/-- The body of the start loop for one role (src lines 111 to 128).
Faithful to src line 127: when the component has a lifecycle, start is
invoked on the original component reference, not on the folded depender
returned by the injections, and the folded depender is discarded; the
start result replaces the node data. -/
def startStep (sem : ActorSem e) (g : DepGraph) (role : Role) :
    List Event × Except (SysErr e) DepGraph :=
  let component := g.getNodeData role
  let dependencies := g.dependenciesOf role
  let injEvs :=
    if isDepender sem component then
      (injectFold sem g role dependencies component).1
    else []
  if hasLifecycle sem component then
    match sem.startFn component with
    | .ok cnew =>
        match g.setNodeData role cnew with
        | .ok g2 => (injEvs ++ [.startCall role component], .ok g2)
        | .error ge => (injEvs ++ [.startCall role component], .error (.graph ge))
    | .error err => (injEvs ++ [.startCall role component], .error (.actor err))
  else (injEvs, .ok g)

/-- The start loop over a list of roles (src lines 110 to 129): run the
steps in order, stopping at the first failure. -/
def runStart (sem : ActorSem e) : DepGraph → List Role →
    List Event × Except (SysErr e) DepGraph
  | g, [] => ([], .ok g)
  | g, r :: rest =>
      match startStep sem g r with
      | (evs, .error err) => (evs, .error err)
      | (evs, .ok g1) =>
          (evs ++ (runStart sem g1 rest).1, (runStart sem g1 rest).2)

/-- The System start operation (src lines 109 to 131): compute the
overall order, then run the start loop along it. -/
def System.start (sem : ActorSem e) (g : DepGraph) :
    List Event × Except (SysErr e) DepGraph :=
  match g.overallOrder with
  | .error ge => ([], .error (.graph ge))
  | .ok order => runStart sem g order

/-- The body of the stop loop for one role (src lines 136 to 145): no
injection; when the current component has a lifecycle, invoke stop on it
and store the returned instance. -/
def stopStep (sem : ActorSem e) (g : DepGraph) (role : Role) :
    List Event × Except (SysErr e) DepGraph :=
  let component := g.getNodeData role
  if hasLifecycle sem component then
    match sem.stopFn component with
    | .ok cnew =>
        match g.setNodeData role cnew with
        | .ok g2 => ([.stopCall role component], .ok g2)
        | .error ge => ([.stopCall role component], .error (.graph ge))
    | .error err => ([.stopCall role component], .error (.actor err))
  else ([], .ok g)

/-- The stop loop over a list of roles. -/
def runStop (sem : ActorSem e) : DepGraph → List Role →
    List Event × Except (SysErr e) DepGraph
  | g, [] => ([], .ok g)
  | g, r :: rest =>
      match stopStep sem g r with
      | (evs, .error err) => (evs, .error err)
      | (evs, .ok g1) =>
          (evs ++ (runStop sem g1 rest).1, (runStop sem g1 rest).2)

/-- The System stop operation (src lines 135 to 148): compute the overall
order and run the stop loop along its reverse. -/
def System.stop (sem : ActorSem e) (g : DepGraph) :
    List Event × Except (SysErr e) DepGraph :=
  match g.overallOrder with
  | .error ge => ([], .error (.graph ge))
  | .ok order => runStop sem g order.reverse

/-- The role of each start call in a trace, in order. -/
def Event.startRole : Event → Option Role
  | .startCall r _ => some r
  | _ => none

/-- The roles whose start operation a trace invokes, in call order. -/
def startRoles (evs : List Event) : List Role :=
  evs.filterMap Event.startRole

/-- The role of each stop call in a trace, in order. -/
def Event.stopRole : Event → Option Role
  | .stopCall r _ => some r
  | _ => none

/-- The roles whose stop operation a trace invokes, in call order. -/
def stopRoles (evs : List Event) : List Role :=
  evs.filterMap Event.stopRole

/-! Concrete instances used to exercise the theorems.  Instance 0 stands
for the undefined value and has no capabilities; every other instance is
a full actor.  Errors are natural numbers. -/

/-- A semantics in which every nonzero instance is a full actor whose
inject returns the same instance, start returns the instance plus 10 and
stop the instance plus 100. -/
def actorSem : ActorSem Nat where
  hasInject := fun c => c != 0
  hasStart := fun c => c != 0
  hasStop := fun c => c != 0
  injectFn := fun c _ _ => c
  startFn := fun c => .ok (c + 10)
  stopFn := fun c => .ok (c + 100)

/-- Like actorSem, but the start of instance 1 rejects with error 7. -/
def failOneSem : ActorSem Nat where
  hasInject := fun c => c != 0
  hasStart := fun c => c != 0
  hasStop := fun c => c != 0
  injectFn := fun c _ _ => c
  startFn := fun c => if c == 1 then .error 7 else .ok (c + 10)
  stopFn := fun c => .ok (c + 100)

/-- Like actorSem, but every start rejects with error 7. -/
def failAllSem : ActorSem Nat where
  hasInject := fun c => c != 0
  hasStart := fun c => c != 0
  hasStop := fun c => c != 0
  injectFn := fun c _ _ => c
  startFn := fun _ => .error 7
  stopFn := fun c => .ok c

/-- Like actorSem, but inject returns a fresh instance (one more than the
instance it was invoked on). -/
def newInjectSem : ActorSem Nat where
  hasInject := fun c => c != 0
  hasStart := fun c => c != 0
  hasStop := fun c => c != 0
  injectFn := fun c _ _ => c + 1
  startFn := fun c => .ok (c + 10)
  stopFn := fun c => .ok (c + 100)

/-- A semantics in which only instance 3 has the inject capability and no
instance has a lifecycle. -/
def injectOnlySem : ActorSem Nat where
  hasInject := fun c => c == 3
  hasStart := fun _ => false
  hasStop := fun _ => false
  injectFn := fun c _ _ => c
  startFn := fun c => .ok c
  stopFn := fun c => .ok c

/-- The three role scenario of the spec: db depends on clock, web depends
on clock and db. -/
def webBp : Blueprint where
  roles := [("clock", "c"), ("db", "d"), ("web", "w")]
  components := [("clock", 1, []), ("db", 2, ["clock"]), ("web", 3, ["clock", "db"])]

/-- The graph the constructor builds from webBp. -/
def webG : DepGraph :=
  ⟨["clock", "db", "web"], [("clock", 1), ("db", 2), ("web", 3)],
   [("db", ["clock"]), ("web", ["clock", "db"])]⟩

/-- A blueprint with a two role dependency cycle. -/
def cycleBp : Blueprint where
  roles := [("a", ""), ("b", "")]
  components := [("a", 1, ["b"]), ("b", 2, ["a"])]

/-- The graph the constructor builds from cycleBp. -/
def cycleG : DepGraph :=
  ⟨["a", "b"], [("a", 1), ("b", 2)], [("a", ["b"]), ("b", ["a"])]⟩

/-- A one role blueprint. -/
def singleBp : Blueprint where
  roles := [("a", "")]
  components := [("a", 1, [])]

/-- The graph the constructor builds from singleBp. -/
def singleG : DepGraph := ⟨["a"], [("a", 1)], []⟩

/-- Roles a and b, b depending on a. -/
def abBp : Blueprint where
  roles := [("a", ""), ("b", "")]
  components := [("a", 1, []), ("b", 2, ["a"])]

/-- The graph the constructor builds from abBp. -/
def abG : DepGraph := ⟨["a", "b"], [("a", 1), ("b", 2)], [("b", ["a"])]⟩

/-- A one role blueprint for role z with component 5. -/
def zBp : Blueprint where
  roles := [("z", "")]
  components := [("z", 5, [])]

/-- The graph the constructor builds from zBp. -/
def zG : DepGraph := ⟨["z"], [("z", 5)], []⟩

/-- Roles d and r, r depending on d. -/
def drBp : Blueprint where
  roles := [("d", ""), ("r", "")]
  components := [("d", 1, []), ("r", 2, ["d"])]

/-- The graph the constructor builds from drBp. -/
def drG : DepGraph := ⟨["d", "r"], [("d", 1), ("r", 2)], [("r", ["d"])]⟩

/-- Role a carries instance 3 (inject capability, no lifecycle) and
depends on b. -/
def injectOnlyBp : Blueprint where
  roles := [("a", ""), ("b", "")]
  components := [("a", 3, ["b"]), ("b", 4, [])]

/-- Role a carries instance 5 (no capabilities at all under
injectOnlySem) and depends on b. -/
def passiveDepBp : Blueprint where
  roles := [("a", ""), ("b", "")]
  components := [("a", 5, ["b"]), ("b", 4, [])]

/-- Role a depends on b and on the undeclared role ghost. -/
def ghostDepBp : Blueprint where
  roles := [("a", ""), ("b", "")]
  components := [("a", 3, ["b", "ghost"]), ("b", 4, [])]

/-- The event trace of starting webG under actorSem. -/
def webTrace : List Event :=
  [Event.startCall "clock" 1, Event.injectCall "db" "clock" 2 11,
   Event.startCall "db" 2, Event.injectCall "web" "clock" 3 11,
   Event.injectCall "web" "db" 3 12, Event.startCall "web" 3]

/-- The graph after starting webG under actorSem. -/
def webG1 : DepGraph :=
  ⟨["clock", "db", "web"], [("clock", 11), ("db", 12), ("web", 13)],
   [("db", ["clock"]), ("web", ["clock", "db"])]⟩

/-- The event trace of stopping webG1 under actorSem. -/
def webStopTrace : List Event :=
  [Event.stopCall "web" 13, Event.stopCall "db" 12, Event.stopCall "clock" 11]

/-- The graph after stopping webG1 under actorSem. -/
def webG2 : DepGraph :=
  ⟨["clock", "db", "web"], [("clock", 111), ("db", 112), ("web", 113)],
   [("db", ["clock"]), ("web", ["clock", "db"])]⟩

/-- The graph after starting role d of drG under actorSem. -/
def drGmid : DepGraph := ⟨["d", "r"], [("d", 11), ("r", 2)], [("r", ["d"])]⟩

/-- The graph after starting drG under actorSem. -/
def drG1 : DepGraph := ⟨["d", "r"], [("d", 11), ("r", 12)], [("r", ["d"])]⟩

/-! Lemmas about the association list update. -/

theorem find?_setAssoc_self (l : List (Role × a)) (k : Role) (v : a) :
    (setAssoc l k v).find? (fun p => p.1 == k) = some (k, v) := by
  induction l with
  | nil => simp [setAssoc]
  | cons hd tl ih =>
      obtain ⟨k1, v1⟩ := hd
      by_cases h : k1 = k
      · simp [setAssoc, h]
      · simp [setAssoc, h, List.find?_cons, ih]

theorem find?_setAssoc_ne (l : List (Role × a)) (k k2 : Role) (v : a)
    (h : k2 ≠ k) :
    (setAssoc l k v).find? (fun p => p.1 == k2) = l.find? (fun p => p.1 == k2) := by
  induction l with
  | nil => simp [setAssoc, Ne.symm h]
  | cons hd tl ih =>
      obtain ⟨k1, v1⟩ := hd
      by_cases h1 : k1 = k
      · subst h1
        simp [setAssoc, List.find?_cons, Ne.symm h]
      · simp [setAssoc, h1, List.find?_cons, ih]

/-! Lemmas about the graph operations. -/

theorem hasNode_iff (g : DepGraph) (r : Role) :
    g.hasNode r = true ↔ r ∈ g.nodes := by
  simp [DepGraph.hasNode, List.contains, List.elem_iff]

theorem setNodeData_ok (g : DepGraph) (r : Role) (c : Component)
    (h : r ∈ g.nodes) :
    g.setNodeData r c = .ok { g with data := setAssoc g.data r c } := by
  simp [DepGraph.setNodeData, (hasNode_iff g r).mpr h]

theorem setNodeData_spec (g g2 : DepGraph) (r : Role) (c : Component)
    (h : g.setNodeData r c = .ok g2) :
    g2.nodes = g.nodes ∧ g2.outgoing = g.outgoing ∧
      g2.getNodeData r = c ∧
      ∀ r2, r2 ≠ r → g2.getNodeData r2 = g.getNodeData r2 := by
  unfold DepGraph.setNodeData at h
  by_cases hn : g.hasNode r = true
  · simp [hn] at h
    subst h
    refine ⟨rfl, rfl, ?_, ?_⟩
    · simp [DepGraph.getNodeData, find?_setAssoc_self]
    · intro r2 hne
      simp [DepGraph.getNodeData, find?_setAssoc_ne g.data r r2 c hne]
  · simp [hn] at h

/-! Lemmas about the ordering computation.  The order depends only on
the node list and the edge lists, not on the node data. -/

theorem dependenciesOf_congr (g g2 : DepGraph) (h : g2.outgoing = g.outgoing) :
    g2.dependenciesOf = g.dependenciesOf := by
  funext r
  simp [DepGraph.dependenciesOf, h]

theorem overallOrder_congr (g g2 : DepGraph)
    (hn : g2.nodes = g.nodes) (ho : g2.outgoing = g.outgoing) :
    g2.overallOrder = g.overallOrder := by
  have hr : ∀ acc, g2.topoRound acc = g.topoRound acc := by
    intro acc
    simp [DepGraph.topoRound, hn, dependenciesOf_congr g g2 ho]
  have hi : ∀ n, g2.topoIter n = g.topoIter n := by
    intro n
    induction n with
    | zero => simp [DepGraph.topoIter]
    | succ n ih => simp [DepGraph.topoIter, ih, hr]
  simp [DepGraph.overallOrder, hn, hi]

theorem topoIter_subset (g : DepGraph) (n : Nat) :
    ∀ r ∈ g.topoIter n, r ∈ g.nodes := by
  induction n with
  | zero => simp [DepGraph.topoIter]
  | succ n ih =>
      intro r hr
      simp only [DepGraph.topoIter, DepGraph.topoRound, List.mem_append] at hr
      rcases hr with hr | hr
      · exact ih r hr
      · exact List.mem_of_mem_filter hr

theorem contains_eq_false_iff (l : List Role) (r : Role) :
    l.contains r = false ↔ r ∉ l := by
  constructor
  · intro h hmem
    have hc := (hasNode_iff ⟨l, [], []⟩ r).mpr hmem
    rw [DepGraph.hasNode] at hc
    rw [h] at hc
    exact Bool.false_ne_true hc
  · intro h
    cases hc : l.contains r
    · rfl
    · have := (hasNode_iff ⟨l, [], []⟩ r).mp hc
      exact absurd this h

theorem topoIter_nodup (g : DepGraph) (hnd : g.nodes.Nodup) (n : Nat) :
    (g.topoIter n).Nodup := by
  induction n with
  | zero => simp [DepGraph.topoIter]
  | succ n ih =>
      simp only [DepGraph.topoIter, DepGraph.topoRound]
      rw [List.nodup_append]
      refine ⟨ih, hnd.filter _, ?_⟩
      rw [List.disjoint_right]
      intro r hr
      have hcond := List.of_mem_filter hr
      simp only [Bool.and_eq_true, Bool.not_eq_true'] at hcond
      exact (contains_eq_false_iff _ _).mp hcond.1

theorem topo_edge (g : DepGraph) (n : Nat) (r d : Role)
    (hr : r ∈ g.topoIter n) (hd : d ∈ g.dependenciesOf r) :
    [d, r].Sublist (g.topoIter n) := by
  induction n with
  | zero => simp [DepGraph.topoIter] at hr
  | succ n ih =>
      simp only [DepGraph.topoIter, DepGraph.topoRound] at hr ⊢
      rcases List.mem_append.mp hr with hr | hr
      · exact (ih hr).trans (List.sublist_append_left _ _)
      · have hcond := List.of_mem_filter hr
        simp only [Bool.and_eq_true, List.all_eq_true] at hcond
        have hdin : d ∈ g.topoIter n := by
          have := hcond.2 d hd
          rwa [List.contains, List.elem_iff] at this
        have h1 : [d].Sublist (g.topoIter n) := List.singleton_sublist.mpr hdin
        have h2 := List.singleton_sublist.mpr hr
        exact h1.append h2

theorem overallOrder_ok_spec (g : DepGraph) (order : List Role)
    (h : g.overallOrder = .ok order) :
    order = g.topoIter g.nodes.length ∧ order.length = g.nodes.length := by
  by_cases hl : (g.topoIter g.nodes.length).length = g.nodes.length
  · simp [DepGraph.overallOrder, hl] at h
    exact ⟨h.symm, by rw [h] at hl; exact hl⟩
  · simp [DepGraph.overallOrder, hl] at h

theorem overallOrder_subset (g : DepGraph) (order : List Role)
    (h : g.overallOrder = .ok order) : ∀ r ∈ order, r ∈ g.nodes := by
  intro r hr
  rw [(overallOrder_ok_spec g order h).1] at hr
  exact topoIter_subset g _ r hr

theorem overallOrder_nodup (g : DepGraph) (order : List Role)
    (hnd : g.nodes.Nodup) (h : g.overallOrder = .ok order) : order.Nodup := by
  rw [(overallOrder_ok_spec g order h).1]
  exact topoIter_nodup g hnd _

theorem overallOrder_perm (g : DepGraph) (order : List Role)
    (hnd : g.nodes.Nodup) (h : g.overallOrder = .ok order) :
    order.Perm g.nodes := by
  have hsub := List.subperm_of_subset (overallOrder_nodup g order hnd h)
    (fun r hr => overallOrder_subset g order h r hr)
  exact hsub.perm_of_length_le (le_of_eq (overallOrder_ok_spec g order h).2.symm)

theorem overallOrder_edge (g : DepGraph) (order : List Role) (r d : Role)
    (h : g.overallOrder = .ok order) (hr : r ∈ order)
    (hd : d ∈ g.dependenciesOf r) : [d, r].Sublist order := by
  rw [(overallOrder_ok_spec g order h).1] at hr ⊢
  exact topo_edge g _ r d hr hd

/-! Lemmas about traces. -/

theorem startRoles_append (l1 l2 : List Event) :
    startRoles (l1 ++ l2) = startRoles l1 ++ startRoles l2 :=
  List.filterMap_append l1 l2 Event.startRole

theorem stopRoles_append (l1 l2 : List Event) :
    stopRoles (l1 ++ l2) = stopRoles l1 ++ stopRoles l2 :=
  List.filterMap_append l1 l2 Event.stopRole

theorem startRoles_injectFold (sem : ActorSem e) (g : DepGraph) (role : Role)
    (ds : List Role) (c : Component) :
    startRoles (injectFold sem g role ds c).1 = [] := by
  induction ds generalizing c with
  | nil => simp [injectFold, startRoles]
  | cons d ds ih =>
      simp only [injectFold]
      simp [startRoles, List.filterMap_cons, Event.startRole]
      have := ih (sem.injectFn c d (g.getNodeData d))
      simpa [startRoles] using this

theorem injectFold_arg (sem : ActorSem e) (g : DepGraph) (role : Role)
    (ds : List Role) (c : Component) (r0 dep : Role) (tgt a : Component)
    (h : Event.injectCall r0 dep tgt a ∈ (injectFold sem g role ds c).1) :
    a = g.getNodeData dep := by
  induction ds generalizing c with
  | nil => simp [injectFold] at h
  | cons d ds ih =>
      simp only [injectFold, List.mem_cons] at h
      rcases h with h | h
      · cases h
        rfl
      · exact ih (sem.injectFn c d (g.getNodeData d)) h

/-! Lemmas about one start step. -/

theorem startStep_ok_frames (sem : ActorSem e) (g g2 : DepGraph) (r : Role)
    (evs : List Event) (h : startStep sem g r = (evs, .ok g2)) :
    g2.nodes = g.nodes ∧ g2.outgoing = g.outgoing ∧
      ∀ r2, r2 ≠ r → g2.getNodeData r2 = g.getNodeData r2 := by
  by_cases hlc : hasLifecycle sem (g.getNodeData r) = true
  · cases hst : sem.startFn (g.getNodeData r) with
    | ok c2 =>
        cases hsn : g.setNodeData r c2 with
        | ok g3 =>
            simp [startStep, hlc, hst, hsn] at h
            obtain ⟨hs, ho, _, hother⟩ := setNodeData_spec g g3 r c2 hsn
            rw [← h.2]
            exact ⟨hs, ho, hother⟩
        | error ge => simp [startStep, hlc, hst, hsn] at h
    | error err => simp [startStep, hlc, hst] at h
  · rw [Bool.not_eq_true] at hlc
    simp [startStep, hlc] at h
    rw [← h.2]
    exact ⟨rfl, rfl, fun _ _ => rfl⟩

theorem startRoles_injEvs (sem : ActorSem e) (g : DepGraph) (r : Role) :
    startRoles (if isDepender sem (g.getNodeData r) = true then
        (injectFold sem g r (g.dependenciesOf r) (g.getNodeData r)).1
      else []) = [] := by
  by_cases hd : isDepender sem (g.getNodeData r) = true
  · rw [if_pos hd]
    exact startRoles_injectFold sem g r _ _
  · rw [if_neg hd]
    rfl

theorem startRoles_startStep (sem : ActorSem e) (g : DepGraph) (r : Role)
    (evs : List Event) (res : Except (SysErr e) DepGraph)
    (h : startStep sem g r = (evs, res)) :
    startRoles evs = if hasLifecycle sem (g.getNodeData r) = true then [r] else [] := by
  by_cases hlc : hasLifecycle sem (g.getNodeData r) = true
  · cases hst : sem.startFn (g.getNodeData r) with
    | ok c2 =>
        cases hsn : g.setNodeData r c2 with
        | ok g3 =>
            simp [startStep, hlc, hst, hsn] at h
            rw [← h.1, startRoles_append, startRoles_injEvs, if_pos hlc]
            rfl
        | error ge =>
            simp [startStep, hlc, hst, hsn] at h
            rw [← h.1, startRoles_append, startRoles_injEvs, if_pos hlc]
            rfl
    | error err =>
        simp [startStep, hlc, hst] at h
        rw [← h.1, startRoles_append, startRoles_injEvs, if_pos hlc]
        rfl
  · rw [Bool.not_eq_true] at hlc
    simp [startStep, hlc] at h
    rw [← h.1, startRoles_injEvs, if_neg (by simp [hlc])]

theorem startStep_inject_arg (sem : ActorSem e) (g : DepGraph) (r : Role)
    (evs : List Event) (res : Except (SysErr e) DepGraph)
    (h : startStep sem g r = (evs, res)) (r0 dep : Role) (tgt a : Component)
    (hmem : Event.injectCall r0 dep tgt a ∈ evs) :
    a = g.getNodeData dep := by
  have hinj : ∀ x ∈ (if isDepender sem (g.getNodeData r) then
      (injectFold sem g r (g.dependenciesOf r) (g.getNodeData r)).1
    else ([] : List Event)), x = Event.injectCall r0 dep tgt a →
      a = g.getNodeData dep := by
    intro x hx hxe
    by_cases hd : isDepender sem (g.getNodeData r) = true
    · rw [if_pos hd] at hx
      rw [hxe] at hx
      exact injectFold_arg sem g r _ _ r0 dep tgt a hx
    · rw [Bool.not_eq_true] at hd
      simp [hd] at hx
  by_cases hlc : hasLifecycle sem (g.getNodeData r) = true
  · cases hst : sem.startFn (g.getNodeData r) with
    | ok c2 =>
        cases hsn : g.setNodeData r c2 with
        | ok g3 =>
            simp [startStep, hlc, hst, hsn] at h
            rw [← h.1] at hmem
            rcases List.mem_append.mp hmem with hm | hm
            · exact hinj _ hm rfl
            · simp at hm
        | error ge =>
            simp [startStep, hlc, hst, hsn] at h
            rw [← h.1] at hmem
            rcases List.mem_append.mp hmem with hm | hm
            · exact hinj _ hm rfl
            · simp at hm
    | error err =>
        simp [startStep, hlc, hst] at h
        rw [← h.1] at hmem
        rcases List.mem_append.mp hmem with hm | hm
        · exact hinj _ hm rfl
        · simp at hm
  · rw [Bool.not_eq_true] at hlc
    simp [startStep, hlc] at h
    rw [← h.1] at hmem
    exact hinj _ hmem rfl

/-! Lemmas about the start loop. -/

theorem runStart_append_ok (sem : ActorSem e) (g g1 : DepGraph)
    (l1 l2 : List Role) (t1 : List Event)
    (h : runStart sem g l1 = (t1, .ok g1)) :
    runStart sem g (l1 ++ l2) =
      (t1 ++ (runStart sem g1 l2).1, (runStart sem g1 l2).2) := by
  induction l1 generalizing g t1 with
  | nil =>
      simp only [runStart] at h
      obtain ⟨rfl, h2⟩ := Prod.mk.injEq .. ▸ h
      cases h2
      simp
  | cons r rest ih =>
      cases hss : startStep sem g r with
      | mk evs res =>
          cases res with
          | error err =>
              simp only [runStart, hss] at h
              simp at h
          | ok gmid =>
              simp only [List.cons_append, runStart, hss] at h ⊢
              obtain ⟨ht, hres⟩ := Prod.mk.injEq .. ▸ h
              have hmid : runStart sem gmid rest = ((runStart sem gmid rest).1, .ok g1) := by
                rw [← hres]
              have hih := ih gmid (runStart sem gmid rest).1 hmid
              simp only [List.append_eq] at hih ⊢
              rw [hih, ← ht]
              simp

theorem runStart_append_err (sem : ActorSem e) (g : DepGraph)
    (l1 l2 : List Role) (t1 : List Event) (err : SysErr e)
    (h : runStart sem g l1 = (t1, .error err)) :
    runStart sem g (l1 ++ l2) = (t1, .error err) := by
  induction l1 generalizing g t1 with
  | nil =>
      simp only [runStart] at h
      simp at h
  | cons r rest ih =>
      cases hss : startStep sem g r with
      | mk evs res =>
          cases res with
          | error err2 =>
              simp only [runStart, hss] at h ⊢
              obtain ⟨rfl, h2⟩ := Prod.mk.injEq .. ▸ h
              cases h2
              simp only [List.cons_append, runStart, hss]
          | ok gmid =>
              simp only [runStart, hss] at h
              obtain ⟨ht, hres⟩ := Prod.mk.injEq .. ▸ h
              have hmid : runStart sem gmid rest = ((runStart sem gmid rest).1, .error err) := by
                rw [← hres]
              have hih := ih gmid (runStart sem gmid rest).1 hmid
              simp only [List.cons_append, runStart, hss, List.append_eq]
              simp only [List.append_eq] at hih
              rw [hih, ← ht]

theorem runStart_ok_spec (sem : ActorSem e) (l : List Role) :
    ∀ (g g2 : DepGraph) (tr : List Event),
      l.Nodup → (∀ r ∈ l, r ∈ g.nodes) →
      runStart sem g l = (tr, .ok g2) →
      startRoles tr = l.filter (fun r => hasLifecycle sem (g.getNodeData r)) ∧
      g2.nodes = g.nodes ∧ g2.outgoing = g.outgoing ∧
      ∀ r, r ∉ l → g2.getNodeData r = g.getNodeData r := by
  induction l with
  | nil =>
      intro g g2 tr _ _ h
      simp only [runStart] at h
      obtain ⟨rfl, hg⟩ := Prod.mk.injEq .. ▸ h
      cases hg
      exact ⟨rfl, rfl, rfl, fun _ _ => rfl⟩
  | cons r rest ih =>
      intro g g2 tr hnd hsub h
      cases hss : startStep sem g r with
      | mk evs res =>
          cases res with
          | error err =>
              simp only [runStart, hss] at h
              simp at h
          | ok gmid =>
              simp only [runStart, hss] at h
              obtain ⟨ht, hres⟩ := Prod.mk.injEq .. ▸ h
              have hmid : runStart sem gmid rest = ((runStart sem gmid rest).1, .ok g2) := by
                rw [← hres]
              obtain ⟨hfn, hfo, hfd⟩ := startStep_ok_frames sem g gmid r evs hss
              rw [List.nodup_cons] at hnd
              have hsub2 : ∀ x ∈ rest, x ∈ gmid.nodes := fun x hx => by
                rw [hfn]
                exact hsub x (List.mem_cons_of_mem r hx)
              obtain ⟨ih1, ih2, ih3, ih4⟩ :=
                ih gmid g2 (runStart sem gmid rest).1 hnd.2 hsub2 hmid
              refine ⟨?_, by rw [ih2, hfn], by rw [ih3, hfo], ?_⟩
              · rw [← ht, startRoles_append,
                  startRoles_startStep sem g r evs (.ok gmid) hss, ih1,
                  List.filter_cons]
                have hfilter : rest.filter
                      (fun x => hasLifecycle sem (gmid.getNodeData x)) =
                    rest.filter (fun x => hasLifecycle sem (g.getNodeData x)) := by
                  apply List.filter_congr
                  intro x hx
                  rw [hfd x (fun hxr => hnd.1 (hxr ▸ hx))]
                rw [hfilter]
                by_cases hlc : hasLifecycle sem (g.getNodeData r) = true
                · rw [if_pos hlc, if_pos hlc]
                  rfl
                · rw [if_neg hlc, if_neg hlc]
                  rfl
              · intro x hx
                rw [ih4 x (fun hxr => hx (List.mem_cons_of_mem r hxr))]
                exact hfd x (fun hxr => hx (by rw [hxr]; exact List.mem_cons_self r rest))

theorem runStart_inject_arg (sem : ActorSem e) (l : List Role) :
    ∀ (g : DepGraph) (d : Role), d ∉ l →
      ∀ (r0 dep : Role) (tgt a : Component),
        Event.injectCall r0 dep tgt a ∈ (runStart sem g l).1 → dep = d →
        a = g.getNodeData d := by
  induction l with
  | nil =>
      intro g d _ r0 dep tgt a hmem _
      simp [runStart] at hmem
  | cons r rest ih =>
      intro g d hd r0 dep tgt a hmem hdep
      cases hss : startStep sem g r with
      | mk evs res =>
          cases res with
          | error err =>
              simp only [runStart, hss] at hmem
              subst hdep
              exact startStep_inject_arg sem g r evs _ hss r0 dep tgt a hmem
          | ok gmid =>
              simp only [runStart, hss] at hmem
              rcases List.mem_append.mp hmem with hm | hm
              · subst hdep
                exact startStep_inject_arg sem g r evs _ hss r0 dep tgt a hm
              · have hdr : d ≠ r := fun hdr =>
                  hd (by rw [hdr]; exact List.mem_cons_self r rest)
                have hrest : d ∉ rest := fun hx => hd (List.mem_cons_of_mem r hx)
                have hres := ih gmid d hrest r0 dep tgt a hm hdep
                rw [hres]
                exact (startStep_ok_frames sem g gmid r evs hss).2.2 d hdr

/-! Lemmas about the stop loop. -/

theorem stopStep_ok_frames (sem : ActorSem e) (g g2 : DepGraph) (r : Role)
    (evs : List Event) (h : stopStep sem g r = (evs, .ok g2)) :
    g2.nodes = g.nodes ∧ g2.outgoing = g.outgoing ∧
      ∀ r2, r2 ≠ r → g2.getNodeData r2 = g.getNodeData r2 := by
  by_cases hlc : hasLifecycle sem (g.getNodeData r) = true
  · cases hst : sem.stopFn (g.getNodeData r) with
    | ok c2 =>
        cases hsn : g.setNodeData r c2 with
        | ok g3 =>
            simp [stopStep, hlc, hst, hsn] at h
            obtain ⟨hs, ho, _, hother⟩ := setNodeData_spec g g3 r c2 hsn
            rw [← h.2]
            exact ⟨hs, ho, hother⟩
        | error ge => simp [stopStep, hlc, hst, hsn] at h
    | error err => simp [stopStep, hlc, hst] at h
  · rw [Bool.not_eq_true] at hlc
    simp [stopStep, hlc] at h
    rw [← h.2]
    exact ⟨rfl, rfl, fun _ _ => rfl⟩

theorem stopRoles_stopStep (sem : ActorSem e) (g : DepGraph) (r : Role)
    (evs : List Event) (res : Except (SysErr e) DepGraph)
    (h : stopStep sem g r = (evs, res)) :
    stopRoles evs = if hasLifecycle sem (g.getNodeData r) = true then [r] else [] := by
  by_cases hlc : hasLifecycle sem (g.getNodeData r) = true
  · cases hst : sem.stopFn (g.getNodeData r) with
    | ok c2 =>
        cases hsn : g.setNodeData r c2 with
        | ok g3 =>
            simp [stopStep, hlc, hst, hsn] at h
            rw [← h.1, if_pos hlc]
            rfl
        | error ge =>
            simp [stopStep, hlc, hst, hsn] at h
            rw [← h.1, if_pos hlc]
            rfl
    | error err =>
        simp [stopStep, hlc, hst] at h
        rw [← h.1, if_pos hlc]
        rfl
  · rw [Bool.not_eq_true] at hlc
    simp [stopStep, hlc] at h
    rw [h.1, if_neg (by simp [hlc])]
    rfl

theorem stopStep_call_mem (sem : ActorSem e) (g : DepGraph) (r : Role)
    (hlc : hasLifecycle sem (g.getNodeData r) = true) :
    Event.stopCall r (g.getNodeData r) ∈ (stopStep sem g r).1 := by
  cases hst : sem.stopFn (g.getNodeData r) with
  | ok c2 =>
      cases hsn : g.setNodeData r c2 with
      | ok g3 => simp [stopStep, hlc, hst, hsn]
      | error ge => simp [stopStep, hlc, hst, hsn]
  | error err => simp [stopStep, hlc, hst]

theorem runStop_ok_spec (sem : ActorSem e) (l : List Role) :
    ∀ (g g2 : DepGraph) (tr : List Event),
      l.Nodup → (∀ r ∈ l, r ∈ g.nodes) →
      runStop sem g l = (tr, .ok g2) →
      stopRoles tr = l.filter (fun r => hasLifecycle sem (g.getNodeData r)) ∧
      g2.nodes = g.nodes ∧ g2.outgoing = g.outgoing ∧
      ∀ r, r ∉ l → g2.getNodeData r = g.getNodeData r := by
  induction l with
  | nil =>
      intro g g2 tr _ _ h
      simp only [runStop] at h
      obtain ⟨rfl, hg⟩ := Prod.mk.injEq .. ▸ h
      cases hg
      exact ⟨rfl, rfl, rfl, fun _ _ => rfl⟩
  | cons r rest ih =>
      intro g g2 tr hnd hsub h
      cases hss : stopStep sem g r with
      | mk evs res =>
          cases res with
          | error err =>
              simp only [runStop, hss] at h
              simp at h
          | ok gmid =>
              simp only [runStop, hss] at h
              obtain ⟨ht, hres⟩ := Prod.mk.injEq .. ▸ h
              have hmid : runStop sem gmid rest = ((runStop sem gmid rest).1, .ok g2) := by
                rw [← hres]
              obtain ⟨hfn, hfo, hfd⟩ := stopStep_ok_frames sem g gmid r evs hss
              rw [List.nodup_cons] at hnd
              have hsub2 : ∀ x ∈ rest, x ∈ gmid.nodes := fun x hx => by
                rw [hfn]
                exact hsub x (List.mem_cons_of_mem r hx)
              obtain ⟨ih1, ih2, ih3, ih4⟩ :=
                ih gmid g2 (runStop sem gmid rest).1 hnd.2 hsub2 hmid
              refine ⟨?_, by rw [ih2, hfn], by rw [ih3, hfo], ?_⟩
              · rw [← ht, stopRoles_append,
                  stopRoles_stopStep sem g r evs (.ok gmid) hss, ih1,
                  List.filter_cons]
                have hfilter : rest.filter
                      (fun x => hasLifecycle sem (gmid.getNodeData x)) =
                    rest.filter (fun x => hasLifecycle sem (g.getNodeData x)) := by
                  apply List.filter_congr
                  intro x hx
                  rw [hfd x (fun hxr => hnd.1 (hxr ▸ hx))]
                rw [hfilter]
                by_cases hlc : hasLifecycle sem (g.getNodeData r) = true
                · rw [if_pos hlc, if_pos hlc]
                  rfl
                · rw [if_neg hlc, if_neg hlc]
                  rfl
              · intro x hx
                rw [ih4 x (fun hxr => hx (List.mem_cons_of_mem r hxr))]
                exact hfd x (fun hxr => hx (by rw [hxr]; exact List.mem_cons_self r rest))

theorem runStop_call_mem (sem : ActorSem e) (l : List Role) :
    ∀ (g g2 : DepGraph) (tr : List Event) (d : Role),
      l.Nodup → d ∈ l →
      hasLifecycle sem (g.getNodeData d) = true →
      runStop sem g l = (tr, .ok g2) →
      Event.stopCall d (g.getNodeData d) ∈ tr := by
  induction l with
  | nil =>
      intro g g2 tr d _ hd _ _
      simp at hd
  | cons r rest ih =>
      intro g g2 tr d hnd hd hlc h
      cases hss : stopStep sem g r with
      | mk evs res =>
          cases res with
          | error err =>
              simp only [runStop, hss] at h
              simp at h
          | ok gmid =>
              simp only [runStop, hss] at h
              obtain ⟨ht, hres⟩ := Prod.mk.injEq .. ▸ h
              have hmid : runStop sem gmid rest = ((runStop sem gmid rest).1, .ok g2) := by
                rw [← hres]
              rw [List.nodup_cons] at hnd
              rcases List.mem_cons.mp hd with hdr | hdrest
              · rw [← ht]
                apply List.mem_append_left
                have hcall := stopStep_call_mem sem g r (by rw [← hdr]; exact hlc)
                rw [hss] at hcall
                rw [hdr]
                exact hcall
              · have hdner : d ≠ r := fun hx => hnd.1 (hx ▸ hdrest)
                have hdata := (stopStep_ok_frames sem g gmid r evs hss).2.2 d hdner
                rw [← ht]
                apply List.mem_append_right
                rw [← hdata]
                exact ih gmid g2 (runStop sem gmid rest).1 d hnd.2 hdrest
                  (by rw [hdata]; exact hlc) hmid

/-! Lemmas about construction. -/

theorem addNode_mem (g : DepGraph) (r x : Role) :
    x ∈ (g.addNode r).nodes ↔ x ∈ g.nodes ∨ x = r := by
  unfold DepGraph.addNode
  by_cases h : g.hasNode r = true
  · rw [if_pos h]
    have hr := (hasNode_iff g r).mp h
    constructor
    · exact Or.inl
    · rintro (hx | rfl)
      · exact hx
      · exact hr
  · rw [if_neg h]
    simp

theorem addNode_nodup (g : DepGraph) (r : Role) (h : g.nodes.Nodup) :
    (g.addNode r).nodes.Nodup := by
  unfold DepGraph.addNode
  by_cases hn : g.hasNode r = true
  · rw [if_pos hn]
    exact h
  · rw [if_neg hn]
    rw [List.nodup_append]
    refine ⟨h, List.nodup_singleton r, ?_⟩
    intro a ha har
    rw [List.mem_singleton] at har
    exact hn ((hasNode_iff g r).mpr (har ▸ ha))

theorem addNode_rest (g : DepGraph) (r : Role) :
    (g.addNode r).data = g.data ∧ (g.addNode r).outgoing = g.outgoing := by
  unfold DepGraph.addNode
  by_cases hn : g.hasNode r = true
  · rw [if_pos hn]
    exact ⟨rfl, rfl⟩
  · rw [if_neg hn]
    exact ⟨rfl, rfl⟩

theorem addNode_fold_spec (rs : List (Role × String)) :
    ∀ g : DepGraph,
      (∀ x, x ∈ (rs.foldl (fun g2 rd => g2.addNode rd.1) g).nodes ↔
        x ∈ g.nodes ∨ x ∈ rs.map Prod.fst) ∧
      (g.nodes.Nodup → (rs.foldl (fun g2 rd => g2.addNode rd.1) g).nodes.Nodup) ∧
      (rs.foldl (fun g2 rd => g2.addNode rd.1) g).data = g.data ∧
      (rs.foldl (fun g2 rd => g2.addNode rd.1) g).outgoing = g.outgoing := by
  induction rs with
  | nil =>
      intro g
      simp
  | cons rd rest ih =>
      intro g
      obtain ⟨ihm, ihnd, ihd, iho⟩ := ih (g.addNode rd.1)
      refine ⟨?_, ?_, ?_, ?_⟩
      · intro x
        rw [List.foldl_cons, ihm, addNode_mem]
        simp [or_assoc]
      · intro hnd
        rw [List.foldl_cons]
        exact ihnd (addNode_nodup g rd.1 hnd)
      · rw [List.foldl_cons, ihd]
        exact (addNode_rest g rd.1).1
      · rw [List.foldl_cons, iho]
        exact (addNode_rest g rd.1).2

theorem addDependency_nodes_data (g g2 : DepGraph) (a b : Role)
    (h : g.addDependency a b = .ok g2) :
    g2.nodes = g.nodes ∧ g2.data = g.data := by
  unfold DepGraph.addDependency at h
  by_cases h1 : g.hasNode a = true
  · by_cases h2 : g.hasNode b = true
    · rw [if_neg (by simp [h1]), if_neg (by simp [h2])] at h
      cases h
      exact ⟨rfl, rfl⟩
    · rw [if_neg (by simp [h1]), if_pos (by simp [h2])] at h
      cases h
  · rw [if_pos (by simp [h1])] at h
    cases h

theorem addDependency_ok_exists (g : DepGraph) (a b : Role)
    (ha : a ∈ g.nodes) (hb : b ∈ g.nodes) :
    ∃ g2, g.addDependency a b = .ok g2 ∧ g2.nodes = g.nodes ∧ g2.data = g.data := by
  unfold DepGraph.addDependency
  rw [if_neg (by simp [(hasNode_iff g a).mpr ha]),
    if_neg (by simp [(hasNode_iff g b).mpr hb])]
  exact ⟨_, rfl, rfl, rfl⟩

theorem addDependency_missing (g : DepGraph) (a b : Role)
    (ha : a ∈ g.nodes) (hb : b ∉ g.nodes) :
    g.addDependency a b = .error (.missingNode b) := by
  unfold DepGraph.addDependency
  rw [if_neg (by simp [(hasNode_iff g a).mpr ha]),
    if_pos (fun hc => hb ((hasNode_iff g b).mp hc))]

theorem addDepStep_ok_exists (g : DepGraph) (role d : Role)
    (hr : role ∈ g.nodes) (hd : d ∈ g.nodes) :
    ∃ g2, (addDepStep role g d : Except (SysErr e) DepGraph) = .ok g2 ∧
      g2.nodes = g.nodes ∧ g2.data = g.data := by
  obtain ⟨g2, h, hn, hdt⟩ := addDependency_ok_exists g role d hr hd
  exact ⟨g2, by simp [addDepStep, h], hn, hdt⟩

theorem addDepStep_nodes_data (g g2 : DepGraph) (role d : Role)
    (h : (addDepStep role g d : Except (SysErr e) DepGraph) = .ok g2) :
    g2.nodes = g.nodes ∧ g2.data = g.data := by
  unfold addDepStep at h
  cases had : g.addDependency role d with
  | ok g3 =>
      rw [had] at h
      cases h
      exact addDependency_nodes_data g _ role d had
  | error ge =>
      rw [had] at h
      cases h

theorem depsFold_ok_exists (role : Role) (deps : List Role) :
    ∀ g : DepGraph, role ∈ g.nodes → (∀ d ∈ deps, d ∈ g.nodes) →
      ∃ g2, (deps.foldlM (addDepStep role) g : Except (SysErr e) DepGraph) = .ok g2 ∧
        g2.nodes = g.nodes ∧ g2.data = g.data := by
  induction deps with
  | nil =>
      intro g _ _
      exact ⟨g, rfl, rfl, rfl⟩
  | cons d ds ih =>
      intro g hr hd
      obtain ⟨gmid, hg, hn, hdt⟩ :=
        addDepStep_ok_exists g role d hr (hd d (List.mem_cons_self d ds))
      obtain ⟨g2, h2, hn2, hdt2⟩ := ih gmid (by rw [hn]; exact hr)
        (fun x hx => by rw [hn]; exact hd x (List.mem_cons_of_mem d hx))
      refine ⟨g2, ?_, by rw [hn2, hn], by rw [hdt2, hdt]⟩
      rw [List.foldlM_cons, hg]
      exact h2

theorem depsFold_nodes (role : Role) (deps : List Role) :
    ∀ g g2 : DepGraph,
      (deps.foldlM (addDepStep role) g : Except (SysErr e) DepGraph) = .ok g2 →
      g2.nodes = g.nodes := by
  induction deps with
  | nil =>
      intro g g2 h
      cases h
      rfl
  | cons d ds ih =>
      intro g g2 h
      rw [List.foldlM_cons] at h
      cases had : (addDepStep role g d : Except (SysErr e) DepGraph) with
      | error ge =>
          rw [had] at h
          exact Except.noConfusion h
      | ok gmid =>
          rw [had] at h
          have h2 : ds.foldlM (addDepStep role) gmid = .ok g2 := h
          rw [ih gmid g2 h2, (addDepStep_nodes_data g gmid role d had).1]

theorem depsFold_missing (role : Role) (ds1 : List Role) :
    ∀ (g : DepGraph) (dbad : Role) (ds2 : List Role),
      role ∈ g.nodes → (∀ d ∈ ds1, d ∈ g.nodes) → dbad ∉ g.nodes →
      ((ds1 ++ dbad :: ds2).foldlM (addDepStep role) g : Except (SysErr e) DepGraph) =
        .error (.graph (.missingNode dbad)) := by
  induction ds1 with
  | nil =>
      intro g dbad ds2 hr _ hbad
      rw [List.nil_append, List.foldlM_cons]
      simp only [addDepStep, addDependency_missing g role dbad hr hbad]
      rfl
  | cons d ds ih =>
      intro g dbad ds2 hr hds hbad
      obtain ⟨gmid, hg, hn, _⟩ :=
        addDepStep_ok_exists g role d hr (hds d (List.mem_cons_self d ds))
      rw [List.cons_append, List.foldlM_cons, hg]
      exact ih gmid dbad ds2 (by rw [hn]; exact hr)
        (fun x hx => by rw [hn]; exact hds x (List.mem_cons_of_mem d hx))
        (by rw [hn]; exact hbad)

theorem constructEntry_ok_exists (sem : ActorSem e) (g : DepGraph) (role : Role)
    (c : Component) (deps : List Role)
    (hrole : role ∈ g.nodes) (hdeps : ∀ d ∈ deps, d ∈ g.nodes)
    (hguard : isDepender sem c = true ∨ deps = []) :
    ∃ g2, System.constructEntry sem g (role, c, deps) = .ok g2 ∧
      g2.nodes = g.nodes := by
  have hguard2 : (!isDepender sem c && !deps.isEmpty) = false := by
    rcases hguard with h | h
    · simp [h]
    · simp [h]
  have hset := setNodeData_ok g role c hrole
  obtain ⟨g2, hf, hn, _⟩ := depsFold_ok_exists role deps
    { g with data := setAssoc g.data role c } hrole hdeps
  refine ⟨g2, ?_, hn⟩
  simp [System.constructEntry, hguard2, hset]
  exact hf

theorem constructEntry_violator (sem : ActorSem e) (g : DepGraph) (role : Role)
    (c : Component) (deps : List Role)
    (hnd : isDepender sem c = false) (hne : deps ≠ []) :
    System.constructEntry sem g (role, c, deps) = .error .onlyDependers := by
  cases deps with
  | nil => exact absurd rfl hne
  | cons d ds => simp [System.constructEntry, hnd]

theorem constructEntry_missing_dep (sem : ActorSem e) (g : DepGraph)
    (role : Role) (c : Component) (ds1 : List Role) (dbad : Role)
    (ds2 : List Role) (hrole : role ∈ g.nodes)
    (hdep : isDepender sem c = true) (hds1 : ∀ d ∈ ds1, d ∈ g.nodes)
    (hbad : dbad ∉ g.nodes) :
    System.constructEntry sem g (role, c, ds1 ++ dbad :: ds2) =
      .error (.graph (.missingNode dbad)) := by
  have hset := setNodeData_ok g role c hrole
  have hf := depsFold_missing (e := e) role ds1
    { g with data := setAssoc g.data role c } dbad ds2 hrole hds1 hbad
  simp only [System.constructEntry, hdep, Bool.not_true, Bool.false_and,
    Bool.false_eq_true, if_false, hset]
  exact hf

theorem constructEntry_nodes (sem : ActorSem e) (g g2 : DepGraph)
    (p : Role × Component × List Role)
    (h : System.constructEntry sem g p = .ok g2) : g2.nodes = g.nodes := by
  obtain ⟨r, c, ds⟩ := p
  by_cases hguard : (!isDepender sem c && !ds.isEmpty) = true
  · simp [System.constructEntry, hguard] at h
  · rw [Bool.not_eq_true] at hguard
    cases hset : g.setNodeData r c with
    | error ge => simp [System.constructEntry, hguard, hset] at h
    | ok g1 =>
        simp only [System.constructEntry, hguard, Bool.false_eq_true,
          if_false, hset] at h
        rw [depsFold_nodes r ds g1 g2 h, (setNodeData_spec g g1 r c hset).1]

theorem componentsFold_ok_exists (sem : ActorSem e)
    (entries : List (Role × Component × List Role)) :
    ∀ g : DepGraph,
      (∀ p ∈ entries, p.1 ∈ g.nodes ∧ (∀ d ∈ p.2.2, d ∈ g.nodes) ∧
        (isDepender sem p.2.1 = true ∨ p.2.2 = [])) →
      ∃ g2, entries.foldlM (System.constructEntry sem) g = .ok g2 ∧
        g2.nodes = g.nodes := by
  induction entries with
  | nil =>
      intro g _
      exact ⟨g, rfl, rfl⟩
  | cons p rest ih =>
      intro g hwf
      obtain ⟨r, c, ds⟩ := p
      obtain ⟨h1, h2, h3⟩ := hwf (r, c, ds) (List.mem_cons_self _ _)
      obtain ⟨gmid, hg, hn⟩ := constructEntry_ok_exists sem g r c ds h1 h2 h3
      obtain ⟨g2, hg2, hn2⟩ := ih gmid
        (fun q hq => by rw [hn]; exact hwf q (List.mem_cons_of_mem _ hq))
      refine ⟨g2, ?_, by rw [hn2, hn]⟩
      rw [List.foldlM_cons, hg]
      exact hg2

theorem componentsFold_nodes (sem : ActorSem e)
    (entries : List (Role × Component × List Role)) :
    ∀ g g2 : DepGraph,
      entries.foldlM (System.constructEntry sem) g = .ok g2 →
      g2.nodes = g.nodes := by
  induction entries with
  | nil =>
      intro g g2 h
      cases h
      rfl
  | cons p rest ih =>
      intro g g2 h
      rw [List.foldlM_cons] at h
      cases hp : System.constructEntry sem g p with
      | error err =>
          rw [hp] at h
          exact Except.noConfusion h
      | ok gmid =>
          rw [hp] at h
          have h2 : rest.foldlM (System.constructEntry sem) gmid = .ok g2 := h
          rw [ih gmid g2 h2, constructEntry_nodes sem g gmid p hp]

theorem componentsFold_error (sem : ActorSem e)
    (pre : List (Role × Component × List Role)) :
    ∀ g : DepGraph,
      (∀ p ∈ pre, p.1 ∈ g.nodes ∧ (∀ d ∈ p.2.2, d ∈ g.nodes) ∧
        (isDepender sem p.2.1 = true ∨ p.2.2 = [])) →
      ∀ (entry : Role × Component × List Role)
        (post : List (Role × Component × List Role)) (err : SysErr e),
      (∀ g3 : DepGraph, g3.nodes = g.nodes →
        System.constructEntry sem g3 entry = .error err) →
      (pre ++ entry :: post).foldlM (System.constructEntry sem) g = .error err := by
  induction pre with
  | nil =>
      intro g _ entry post err herr
      rw [List.nil_append, List.foldlM_cons, herr g rfl]
      rfl
  | cons p rest ih =>
      intro g hwf entry post err herr
      obtain ⟨r, c, ds⟩ := p
      obtain ⟨h1, h2, h3⟩ := hwf (r, c, ds) (List.mem_cons_self _ _)
      obtain ⟨gmid, hg, hn⟩ := constructEntry_ok_exists sem g r c ds h1 h2 h3
      rw [List.cons_append, List.foldlM_cons, hg]
      exact ih gmid
        (fun q hq => by rw [hn]; exact hwf q (List.mem_cons_of_mem _ hq))
        entry post err (fun g3 hg3 => herr g3 (by rw [hg3, hn]))

theorem constructGraph_nodes (sem : ActorSem e) (bp : Blueprint) (g : DepGraph)
    (h : System.constructGraph sem bp = .ok g) :
    (∀ x, x ∈ g.nodes ↔ x ∈ bp.roles.map Prod.fst) ∧ g.nodes.Nodup := by
  unfold System.constructGraph at h
  obtain ⟨hm, hnd, hd, ho⟩ := addNode_fold_spec bp.roles DepGraph.empty
  have hn := componentsFold_nodes sem bp.components _ g h
  constructor
  · intro x
    rw [hn, hm x]
    simp [DepGraph.empty]
  · rw [hn]
    exact hnd (by simp [DepGraph.empty])

theorem construct_of_graph_ok (sem : ActorSem e) (bp : Blueprint) (g : DepGraph)
    (h : System.constructGraph sem bp = .ok g) :
    (bp.roles.map Prod.fst).filter (fun r => !g.hasNode r) = [] ∧
    System.construct sem bp = .ok g := by
  obtain ⟨hm, hnd⟩ := constructGraph_nodes sem bp g h
  have hfil : (bp.roles.map Prod.fst).filter (fun r => !g.hasNode r) = [] := by
    rw [List.filter_eq_nil_iff]
    intro a ha
    have hh : g.hasNode a = true := (hasNode_iff g a).mpr ((hm a).mpr ha)
    simp [hh]
  refine ⟨hfil, ?_⟩
  unfold System.construct
  rw [h]
  simp [hfil]

theorem construct_graph_of_ok (sem : ActorSem e) (bp : Blueprint) (g : DepGraph)
    (h : System.construct sem bp = .ok g) :
    System.constructGraph sem bp = .ok g := by
  unfold System.construct at h
  cases hcg : System.constructGraph sem bp with
  | error err =>
      rw [hcg] at h
      exact Except.noConfusion h
  | ok g0 =>
      rw [hcg] at h
      by_cases hie :
          ((bp.roles.map Prod.fst).filter (fun r => !g0.hasNode r)).isEmpty = true
      · simp only [hie, if_true] at h
        cases h
        rfl
      · simp only [hie, Bool.false_eq_true, if_false] at h
        exact Except.noConfusion h

theorem construct_ok_nodes (sem : ActorSem e) (bp : Blueprint) (g : DepGraph)
    (h : System.construct sem bp = .ok g) :
    (∀ x, x ∈ g.nodes ↔ x ∈ bp.roles.map Prod.fst) ∧ g.nodes.Nodup :=
  constructGraph_nodes sem bp g (construct_graph_of_ok sem bp g h)

theorem construct_error_of_fold_error (sem : ActorSem e) (bp : Blueprint)
    (err : SysErr e) (h : System.constructGraph sem bp = .error err) :
    System.construct sem bp = .error err := by
  unfold System.construct
  rw [h]

/-! Lemmas about the lifecycle entry points. -/

theorem start_eq_runStart (sem : ActorSem e) (g : DepGraph) (order : List Role)
    (h : g.overallOrder = .ok order) :
    System.start sem g = runStart sem g order := by
  simp [System.start, h]

theorem stop_eq_runStop (sem : ActorSem e) (g : DepGraph) (order : List Role)
    (h : g.overallOrder = .ok order) :
    System.stop sem g = runStop sem g order.reverse := by
  simp [System.stop, h]

/-! The claims. -/

/-- C1: for a System built from a blueprint whose dependency graph admits
a linear order (acyclic) and whose start run succeeds, start invokes the
start operation of each declared role whose component has a lifecycle
exactly once, and for every dependency edge from d to r between roles
with lifecycles, the start call of d occurs before the start call of r in
the trace; the loop awaits each start before moving on, so trace order is
completion order. -/
theorem start_once_and_in_dependency_order (sem : ActorSem e)
    (bp : Blueprint) (g gfin : DepGraph) (order : List Role)
    (tr : List Event)
    (hbuild : System.construct sem bp = .ok g)
    (hord : g.overallOrder = .ok order)
    (hrun : System.start sem g = (tr, .ok gfin)) :
    (∀ r ∈ g.nodes, hasLifecycle sem (g.getNodeData r) = true →
        List.count r (startRoles tr) = 1) ∧
    (∀ r d, r ∈ g.nodes → d ∈ g.dependenciesOf r →
        hasLifecycle sem (g.getNodeData d) = true →
        hasLifecycle sem (g.getNodeData r) = true →
        [d, r].Sublist (startRoles tr)) := by
  have hnd := (construct_ok_nodes sem bp g hbuild).2
  have hond := overallOrder_nodup g order hnd hord
  have hsub := overallOrder_subset g order hord
  have hperm := overallOrder_perm g order hnd hord
  rw [start_eq_runStart sem g order hord] at hrun
  obtain ⟨htr, _, _, _⟩ := runStart_ok_spec sem order g gfin tr hond hsub hrun
  constructor
  · intro r hrn hlc
    have h1 : List.count r order = 1 := by
      rw [hperm.count_eq r]
      exact List.count_eq_one_of_mem hnd hrn
    rw [htr,
      List.count_filter (p := fun x => hasLifecycle sem (g.getNodeData x)) hlc,
      h1]
  · intro r d hrn hd hlcd hlcr
    have hrord : r ∈ order := (hperm.mem_iff).mpr hrn
    have hedge := overallOrder_edge g order r d hord hrord hd
    have hfil : [d, r].filter (fun x => hasLifecycle sem (g.getNodeData x))
        = [d, r] := by
      simp [hlcd, hlcr]
    rw [htr, ← hfil]
    exact hedge.filter _

/-- C1 witness: the clock, db, web scenario under actorSem. -/
theorem start_once_and_in_dependency_order_witness :
    List.count "db" (startRoles webTrace) = 1 ∧
    ["clock", "web"].Sublist (startRoles webTrace) := by
  have h := start_once_and_in_dependency_order actorSem webBp webG webG1
    ["clock", "db", "web"] webTrace rfl rfl rfl
  exact ⟨h.1 "db" (by decide) (by decide),
    h.2 "web" "clock" (by decide) (by decide) (by decide) (by decide)⟩

/-- C2: after a successful start, stop recomputes the same linear order
(the order depends only on nodes and edges, which start does not change)
and visits the roles in exactly its reverse, invoking the stop operation
of each role whose current component has a lifecycle in that reverse
order. -/
theorem stop_reverse_of_start_order (sem : ActorSem e) (bp : Blueprint)
    (g g1 g2 : DepGraph) (order : List Role) (tr tr2 : List Event)
    (hbuild : System.construct sem bp = .ok g)
    (hord : g.overallOrder = .ok order)
    (hstart : System.start sem g = (tr, .ok g1))
    (hstop : System.stop sem g1 = (tr2, .ok g2)) :
    g1.overallOrder = .ok order ∧
    stopRoles tr2 =
      order.reverse.filter (fun r => hasLifecycle sem (g1.getNodeData r)) := by
  have hnd := (construct_ok_nodes sem bp g hbuild).2
  have hond := overallOrder_nodup g order hnd hord
  have hsub := overallOrder_subset g order hord
  rw [start_eq_runStart sem g order hord] at hstart
  obtain ⟨_, hn1, ho1, _⟩ := runStart_ok_spec sem order g g1 tr hond hsub hstart
  have hoo : g1.overallOrder = .ok order := by
    rw [overallOrder_congr g g1 hn1 ho1, hord]
  rw [stop_eq_runStop sem g1 order hoo] at hstop
  obtain ⟨htr2, _, _, _⟩ := runStop_ok_spec sem order.reverse g1 g2 tr2
    (by simpa using hond)
    (fun r hr => by rw [hn1]; exact hsub r (List.mem_reverse.mp hr)) hstop
  exact ⟨hoo, htr2⟩

/-- C2 witness: stopping the started clock, db, web System visits the
roles in reverse start order. -/
theorem stop_reverse_of_start_order_witness :
    stopRoles webStopTrace = ["web", "db", "clock"] := by
  have h := (stop_reverse_of_start_order actorSem webBp webG webG1 webG2
    ["clock", "db", "web"] webTrace webStopTrace rfl rfl rfl rfl).2
  rw [h]
  decide

/-- C10: the final missing roles check of the constructor is vacuous:
whenever the component loop completes, every declared role is already a
graph node, the computed missingRoles list is empty, and construction
returns the graph; the missing roles error is unreachable. -/
theorem missing_roles_check_vacuous (sem : ActorSem e) (bp : Blueprint)
    (g : DepGraph) (h : System.constructGraph sem bp = .ok g) :
    (bp.roles.map Prod.fst).filter (fun r => !g.hasNode r) = [] ∧
    System.construct sem bp = .ok g :=
  construct_of_graph_ok sem bp g h

/-- C10 witness: the webBp constructor reaches the check with no missing
roles. -/
theorem missing_roles_check_vacuous_witness :
    (webBp.roles.map Prod.fst).filter (fun r => !webG.hasNode r) = [] ∧
    System.construct actorSem webBp = .ok webG :=
  missing_roles_check_vacuous actorSem webBp webG rfl

/-- C4 (amended): a cyclic blueprint passes System construction; the
cycle is detected at the first start call, whose ordering computation
fails naming the roles that cannot be ordered, before any actor
operation: the returned trace is empty, so no start is invoked. -/
theorem cycle_fails_at_start_not_construction (sem : ActorSem e)
    (bp : Blueprint) (g : DepGraph) (cyc : List Role)
    (_hbuild : System.construct sem bp = .ok g)
    (hcyc : g.overallOrder = .error (.cycle cyc)) :
    System.start sem g = ([], .error (.graph (.cycle cyc))) := by
  simp [System.start, hcyc]

/-- C4 witness: the two role cycle passes construction and start fails
naming both roles, with an empty trace. -/
theorem cycle_fails_at_start_not_construction_witness :
    System.start actorSem cycleG = ([], .error (.graph (.cycle ["a", "b"]))) :=
  cycle_fails_at_start_not_construction actorSem cycleBp cycleG ["a", "b"]
    rfl rfl

/-- C4 counterexample: constructing a System from the cyclic blueprint
succeeds; construction does not fail with a cyclic dependency error. -/
theorem construction_accepts_cycle_cex :
    System.construct actorSem cycleBp = .ok cycleG := rfl

/-- C5 (amended): the System keeps no lifecycle state, so stop on a
freshly constructed, never started System does not fail with a lifecycle
order error: it computes the order and invokes stop on every component
that has a lifecycle, in reverse order. -/
theorem stop_on_unstarted_runs (sem : ActorSem e) (bp : Blueprint)
    (g g2 : DepGraph) (order : List Role) (tr : List Event)
    (hbuild : System.construct sem bp = .ok g)
    (hord : g.overallOrder = .ok order)
    (hstop : System.stop sem g = (tr, .ok g2)) :
    stopRoles tr =
      order.reverse.filter (fun r => hasLifecycle sem (g.getNodeData r)) := by
  have hnd := (construct_ok_nodes sem bp g hbuild).2
  have hond := overallOrder_nodup g order hnd hord
  have hsub := overallOrder_subset g order hord
  rw [stop_eq_runStop sem g order hord] at hstop
  obtain ⟨htr, _, _, _⟩ := runStop_ok_spec sem order.reverse g g2 tr
    (by simpa using hond)
    (fun r hr => hsub r (List.mem_reverse.mp hr)) hstop
  exact htr

/-- C5 witness: stopping the never started single role System stops its
one lifecycle component. -/
theorem stop_on_unstarted_runs_witness :
    stopRoles [Event.stopCall "a" 1] = ["a"] := by
  have h := stop_on_unstarted_runs actorSem singleBp singleG
    ⟨["a"], [("a", 101)], []⟩ ["a"] [Event.stopCall "a" 1] rfl rfl rfl
  rw [h]
  decide

/-- C5 counterexample: stop on the never started single role System
performs a stop call and succeeds, instead of failing with a lifecycle
order error and performing no calls. -/
theorem stop_on_unstarted_cex :
    System.construct actorSem singleBp = .ok singleG ∧
    System.stop actorSem singleG =
      ([Event.stopCall "a" 1], .ok ⟨["a"], [("a", 101)], []⟩) :=
  ⟨rfl, rfl⟩

/-- C3 (amended): if the start of a role rejects, the loop aborts at that
role: its start call is the last start event of the trace, no role later
in the order is ever started, and the rejection propagates to the caller
raw, wrapped only as an actor error that carries no role identity; the
System stores no lifecycle state, so there is no Failed state to enter. -/
theorem start_failure_aborts_and_propagates_raw (sem : ActorSem e)
    (g g1 : DepGraph) (l1 l2 : List Role) (r : Role) (t1 : List Event)
    (err : e)
    (hnd : g.nodes.Nodup)
    (hord : g.overallOrder = .ok (l1 ++ r :: l2))
    (h1 : runStart sem g l1 = (t1, .ok g1))
    (hlc : hasLifecycle sem (g1.getNodeData r) = true)
    (hfail : sem.startFn (g1.getNodeData r) = .error err) :
    (System.start sem g).2 = .error (.actor err) ∧
    startRoles (System.start sem g).1 = startRoles t1 ++ [r] ∧
    ∀ r2 ∈ l2, r2 ∉ startRoles (System.start sem g).1 := by
  have hond := overallOrder_nodup g _ hnd hord
  have hsub := overallOrder_subset g _ hord
  have hstep : startStep sem g1 r =
      ((if isDepender sem (g1.getNodeData r) = true then
          (injectFold sem g1 r (g1.dependenciesOf r) (g1.getNodeData r)).1
        else []) ++ [.startCall r (g1.getNodeData r)],
       .error (.actor err)) := by
    simp [startStep, hlc, hfail]
  have hrun2 : runStart sem g1 (r :: l2) =
      ((if isDepender sem (g1.getNodeData r) = true then
          (injectFold sem g1 r (g1.dependenciesOf r) (g1.getNodeData r)).1
        else []) ++ [.startCall r (g1.getNodeData r)],
       .error (.actor err)) := by
    simp only [runStart, hstep]
  have hfull : System.start sem g =
      (t1 ++ ((if isDepender sem (g1.getNodeData r) = true then
          (injectFold sem g1 r (g1.dependenciesOf r) (g1.getNodeData r)).1
        else []) ++ [.startCall r (g1.getNodeData r)]),
       .error (.actor err)) := by
    rw [start_eq_runStart sem g _ hord,
      runStart_append_ok sem g g1 l1 (r :: l2) t1 h1, hrun2]
  have h2 : (System.start sem g).2 = .error (.actor err) := by rw [hfull]
  have h3 : (System.start sem g).1 =
      t1 ++ ((if isDepender sem (g1.getNodeData r) = true then
          (injectFold sem g1 r (g1.dependenciesOf r) (g1.getNodeData r)).1
        else []) ++ [.startCall r (g1.getNodeData r)]) := by rw [hfull]
  have hsr : startRoles (System.start sem g).1 = startRoles t1 ++ [r] := by
    rw [h3, startRoles_append, startRoles_append, startRoles_injEvs sem g1 r]
    rfl
  refine ⟨h2, hsr, ?_⟩
  intro r2 hr2 hmem
  rw [hsr] at hmem
  rw [List.nodup_append] at hond
  obtain ⟨hl1, hrl2, hdisj⟩ := hond
  rcases List.mem_append.mp hmem with hm | hm
  · have hsubl1 : ∀ x ∈ l1, x ∈ g.nodes :=
      fun x hx => hsub x (List.mem_append_left _ hx)
    obtain ⟨htr1, _, _, _⟩ := runStart_ok_spec sem l1 g g1 t1 hl1 hsubl1 h1
    rw [htr1] at hm
    exact hdisj (List.mem_of_mem_filter hm) (List.mem_cons_of_mem r hr2)
  · rw [List.mem_singleton] at hm
    rw [List.nodup_cons] at hrl2
    exact hrl2.1 (hm ▸ hr2)

/-- C3 witness: role a of abBp fails with error 7 under failOneSem; b is
never started and the raw error propagates. -/
theorem start_failure_aborts_witness :
    (System.start failOneSem abG).2 = .error (.actor 7) ∧
    "b" ∉ startRoles (System.start failOneSem abG).1 := by
  have h := start_failure_aborts_and_propagates_raw failOneSem abG abG
    [] ["b"] "a" [] 7 (by decide) rfl rfl rfl rfl
  exact ⟨h.1, h.2.2 "b" (by decide)⟩

/-- C3 counterexample: two Systems whose starts fail at different roles
(a in the first, z in the second, as their traces show) propagate
exactly the same value to the caller.  Were the propagated failure
annotated with the failing role's identity, some function of the
propagated value would recover that role and distinguish the two runs;
the last conjunct shows every function of the propagated value takes
equal values on both, so no reader of the failure can tell the failing
roles apart.  The System likewise records no Failed state: it has no
state field at all, and the result carries only the trace, the raw
error, and no state. -/
theorem start_failure_not_annotated_cex :
    (System.start failOneSem abG).2 = .error (.actor 7) ∧
    (System.start failAllSem zG).2 = .error (.actor 7) ∧
    startRoles (System.start failOneSem abG).1 = ["a"] ∧
    startRoles (System.start failAllSem zG).1 = ["z"] ∧
    ∀ (b : Type) (f : Except (SysErr Nat) DepGraph → b),
      f (System.start failOneSem abG).2 = f (System.start failAllSem zG).2 :=
  ⟨rfl, rfl, rfl, rfl, fun _ f => congrArg f rfl⟩

/-- C6: the code violates the claim at this input: r depends on d, r's
component 2 is injected and the inject returns the fresh instance 3, yet
the trace records the start call on the pre-injection instance 2; the
folded injection result is discarded (src line 127 starts component, not
the folded depender). -/
theorem start_invoked_on_preinjection_instance_bug :
    System.construct newInjectSem drBp = .ok drG ∧
    (System.start newInjectSem drG).1 =
      [Event.startCall "d" 1, Event.injectCall "r" "d" 2 11,
       Event.startCall "r" 2] ∧
    newInjectSem.injectFn 2 "d" 11 = 3 ∧ (3 : Component) ≠ 2 :=
  ⟨rfl, rfl, rfl, by decide⟩

/-- C7: if a role's start returns a new instance, every later injection
of that role into a dependent passes the new instance, and the eventual
stop call for that role is invoked on the new instance, never the
pre-start original. -/
theorem post_start_instance_authoritative (sem : ActorSem e)
    (g g1 gmid g2 : DepGraph) (l1 l2 : List Role) (d : Role)
    (t1 td t2 : List Event) (cnew : Component)
    (hnd : g.nodes.Nodup)
    (hord : g.overallOrder = .ok (l1 ++ d :: l2))
    (h1 : runStart sem g l1 = (t1, .ok g1))
    (hstep : startStep sem g1 d = (td, .ok gmid))
    (h2 : runStart sem gmid l2 = (t2, .ok g2))
    (hlc : hasLifecycle sem (g1.getNodeData d) = true)
    (hstart : sem.startFn (g1.getNodeData d) = .ok cnew)
    (hlc2 : hasLifecycle sem cnew = true) :
    System.start sem g = (t1 ++ td ++ t2, .ok g2) ∧
    (∀ r0 dep tgt a, Event.injectCall r0 dep tgt a ∈ t2 → dep = d →
      a = cnew) ∧
    (∀ tr3 g3, System.stop sem g2 = (tr3, .ok g3) →
      Event.stopCall d cnew ∈ tr3) := by
  have hondfull := overallOrder_nodup g _ hnd hord
  have hsub := overallOrder_subset g _ hord
  have hond := hondfull
  rw [List.nodup_append] at hond
  obtain ⟨hndl1, hndr, hdisj⟩ := hond
  rw [List.nodup_cons] at hndr
  obtain ⟨hdl2, hndl2⟩ := hndr
  have hsubl1 : ∀ x ∈ l1, x ∈ g.nodes :=
    fun x hx => hsub x (List.mem_append_left _ hx)
  obtain ⟨htr1, hn1, ho1, hd1⟩ := runStart_ok_spec sem l1 g g1 t1 hndl1 hsubl1 h1
  have hdg : d ∈ g.nodes :=
    hsub d (List.mem_append_right _ (List.mem_cons_self d l2))
  have hdg1 : d ∈ g1.nodes := by
    rw [hn1]
    exact hdg
  have hset := setNodeData_ok g1 d cnew hdg1
  have hstep2 : startStep sem g1 d =
      ((if isDepender sem (g1.getNodeData d) = true then
          (injectFold sem g1 d (g1.dependenciesOf d) (g1.getNodeData d)).1
        else []) ++ [.startCall d (g1.getNodeData d)],
       .ok { g1 with data := setAssoc g1.data d cnew }) := by
    simp [startStep, hlc, hstart, hset]
  rw [hstep] at hstep2
  obtain ⟨htd, hgmid⟩ := Prod.mk.injEq .. ▸ hstep2
  injection hgmid with hgm
  have hgmd : gmid.getNodeData d = cnew := by
    rw [hgm]
    exact (setNodeData_spec g1 _ d cnew hset).2.2.1
  have hgmn : gmid.nodes = g1.nodes := by rw [hgm]
  have hgmo : gmid.outgoing = g1.outgoing := by rw [hgm]
  have hsubl2 : ∀ x ∈ l2, x ∈ gmid.nodes := fun x hx => by
    rw [hgmn, hn1]
    exact hsub x (List.mem_append_right _ (List.mem_cons_of_mem d hx))
  obtain ⟨htr2, hn2, ho2, hd2⟩ := runStart_ok_spec sem l2 gmid g2 t2 hndl2 hsubl2 h2
  have hrunfull : System.start sem g = (t1 ++ td ++ t2, .ok g2) := by
    rw [start_eq_runStart sem g _ hord,
      runStart_append_ok sem g g1 l1 (d :: l2) t1 h1]
    have hr2 : runStart sem g1 (d :: l2) = (td ++ t2, .ok g2) := by
      simp only [runStart, hstep]
      rw [h2]
    rw [hr2, List.append_assoc]
  refine ⟨hrunfull, ?_, ?_⟩
  · intro r0 dep tgt a hmem hdep
    have harg := runStart_inject_arg sem l2 gmid d hdl2 r0 dep tgt a
      (by rw [h2]; exact hmem) hdep
    rw [harg, hgmd]
  · intro tr3 g3 hstop
    have hg2d : g2.getNodeData d = cnew := by rw [hd2 d hdl2, hgmd]
    have hg2n : g2.nodes = g.nodes := by rw [hn2, hgmn, hn1]
    have hg2o : g2.outgoing = g.outgoing := by rw [ho2, hgmo, ho1]
    have hoo2 : g2.overallOrder = .ok (l1 ++ d :: l2) := by
      rw [overallOrder_congr g g2 hg2n hg2o, hord]
    rw [stop_eq_runStop sem g2 _ hoo2] at hstop
    have hmem := runStop_call_mem sem (l1 ++ d :: l2).reverse g2 g3 tr3 d
      (by rw [List.nodup_reverse]; exact hondfull)
      (by simp)
      (by rw [hg2d]; exact hlc2) hstop
    rw [hg2d] at hmem
    exact hmem

/-- C7 witness: starting drBp under actorSem replaces the instance 1 of
role d with 11; the dependent r is injected with 11 and the stop call for
d is invoked on 11. -/
theorem post_start_instance_authoritative_witness :
    System.start actorSem drG =
      ([Event.startCall "d" 1, Event.injectCall "r" "d" 2 11,
        Event.startCall "r" 2], .ok drG1) ∧
    Event.stopCall "d" 11 ∈
      [Event.stopCall "r" 12, Event.stopCall "d" 11] := by
  have h := post_start_instance_authoritative actorSem drG drG drGmid drG1
    [] ["r"] "d" [] [Event.startCall "d" 1]
    [Event.injectCall "r" "d" 2 11, Event.startCall "r" 2] 11
    (by decide) rfl rfl rfl rfl (by decide) rfl (by decide)
  refine ⟨?_, h.2.2 [Event.stopCall "r" 12, Event.stopCall "d" 11]
    ⟨["d", "r"], [("d", 111), ("r", 112)], [("r", ["d"])]⟩ rfl⟩
  have h1 := h.1
  simpa using h1

/-- C8 (amended): construction rejects a component carrying a non-empty
dependency set exactly when it lacks the injection capability (the
isDepender guard); the lifecycle half of the Actor capability is not
consulted.  Stated for the first such offending entry, the earlier
entries passing the checks. -/
theorem construction_rejects_noninjector_with_deps (sem : ActorSem e)
    (bp : Blueprint) (pre post : List (Role × Component × List Role))
    (role : Role) (c : Component) (deps : List Role)
    (hsplit : bp.components = pre ++ (role, c, deps) :: post)
    (hpre : ∀ p ∈ pre, p.1 ∈ bp.roles.map Prod.fst ∧
      (∀ dd ∈ p.2.2, dd ∈ bp.roles.map Prod.fst) ∧
      (isDepender sem p.2.1 = true ∨ p.2.2 = []))
    (hni : isDepender sem c = false) (hne : deps ≠ []) :
    System.construct sem bp = .error .onlyDependers := by
  apply construct_error_of_fold_error
  unfold System.constructGraph
  rw [hsplit]
  obtain ⟨hm, _, _, _⟩ := addNode_fold_spec bp.roles DepGraph.empty
  have hmem : ∀ x, x ∈ bp.roles.map Prod.fst →
      x ∈ (bp.roles.foldl (fun g2 rd => g2.addNode rd.1) DepGraph.empty).nodes :=
    fun x hx => (hm x).mpr (Or.inr hx)
  exact componentsFold_error sem pre _
    (fun p hp => ⟨hmem p.1 (hpre p hp).1,
      fun dd hd => hmem dd ((hpre p hp).2.1 dd hd), (hpre p hp).2.2⟩)
    (role, c, deps) post _
    (fun g3 _ => constructEntry_violator sem g3 role c deps hni hne)

/-- C8 witness: component 5 of passiveDepBp has no injection capability
and depends on b; construction fails with the composition guard. -/
theorem construction_rejects_noninjector_witness :
    System.construct injectOnlySem passiveDepBp = .error .onlyDependers := by
  have h := construction_rejects_noninjector_with_deps injectOnlySem
    passiveDepBp [] [("b", 4, [])] "a" 5 ["b"] rfl
    (fun p hp => absurd hp (List.not_mem_nil p)) rfl (by decide)
  exact h

/-- C8 counterexample: component 3 has the injection capability but no
lifecycle, so it is not a full actor, and it declares the dependency b;
System construction nevertheless succeeds. -/
theorem nonactor_with_deps_accepted_cex :
    hasLifecycle injectOnlySem 3 = false ∧
    isDepender injectOnlySem 3 = true ∧
    System.construct injectOnlySem injectOnlyBp =
      .ok ⟨["a", "b"], [("a", 3), ("b", 4)], [("a", ["b"])]⟩ :=
  ⟨rfl, rfl, rfl⟩

/-- C9: a dependency edge naming an undeclared role fails System
construction with the graph error naming that role, for a blueprint whose
earlier entries pass the checks; the constructor performs no actor
operation (it only probes the injection capability). -/
theorem undeclared_dependency_fails_construction (sem : ActorSem e)
    (bp : Blueprint) (pre post : List (Role × Component × List Role))
    (role : Role) (c : Component) (ds1 ds2 : List Role) (dbad : Role)
    (hsplit : bp.components = pre ++ (role, c, ds1 ++ dbad :: ds2) :: post)
    (hpre : ∀ p ∈ pre, p.1 ∈ bp.roles.map Prod.fst ∧
      (∀ dd ∈ p.2.2, dd ∈ bp.roles.map Prod.fst) ∧
      (isDepender sem p.2.1 = true ∨ p.2.2 = []))
    (hrole : role ∈ bp.roles.map Prod.fst)
    (hdep : isDepender sem c = true)
    (hds1 : ∀ dd ∈ ds1, dd ∈ bp.roles.map Prod.fst)
    (hbad : dbad ∉ bp.roles.map Prod.fst) :
    System.construct sem bp = .error (.graph (.missingNode dbad)) := by
  apply construct_error_of_fold_error
  unfold System.constructGraph
  rw [hsplit]
  obtain ⟨hm, _, _, _⟩ := addNode_fold_spec bp.roles DepGraph.empty
  have hmem : ∀ x, x ∈ bp.roles.map Prod.fst →
      x ∈ (bp.roles.foldl (fun g2 rd => g2.addNode rd.1) DepGraph.empty).nodes :=
    fun x hx => (hm x).mpr (Or.inr hx)
  have hnbad : dbad ∉
      (bp.roles.foldl (fun g2 rd => g2.addNode rd.1) DepGraph.empty).nodes := by
    intro hx
    rcases (hm dbad).mp hx with h0 | h0
    · simp [DepGraph.empty] at h0
    · exact hbad h0
  exact componentsFold_error sem pre _
    (fun p hp => ⟨hmem p.1 (hpre p hp).1,
      fun dd hd => hmem dd ((hpre p hp).2.1 dd hd), (hpre p hp).2.2⟩)
    (role, c, ds1 ++ dbad :: ds2) post _
    (fun g3 hg3 => constructEntry_missing_dep sem g3 role c ds1 dbad ds2
      (by rw [hg3]; exact hmem role hrole) hdep
      (fun dd hd => by rw [hg3]; exact hmem dd (hds1 dd hd))
      (by rw [hg3]; exact hnbad))

/-- C9 witness: role a of ghostDepBp depends on the undeclared role
ghost; construction fails naming ghost. -/
theorem undeclared_dependency_fails_witness :
    System.construct injectOnlySem ghostDepBp =
      .error (.graph (.missingNode "ghost")) := by
  have h := undeclared_dependency_fails_construction injectOnlySem
    ghostDepBp [] [("b", 4, [])] "a" 3 ["b"] [] "ghost" rfl
    (fun p hp => absurd hp (List.not_mem_nil p)) (by decide) rfl
    (by decide) (by decide)
  exact h

end Compsys
